import Mathlib

/-
Verification development for the grid-based A* router
(src/gdsfactory/routing/astar_routing.py).

The Python source is shallowly embedded over exact rationals:
Python floats become ℚ, numpy arrays become lists, the unbounded
while-loop of the search becomes a fuel-indexed recursion whose
out-of-fuel outcome is distinguished from every returned value, and
every fallible Python operation (dict lookup, generator exhaustion,
numpy shape errors) returns an explicit error value.  External
collaborators that the router merely calls (the waypoint-to-route
builder, the direct Manhattan fallback, cross-section resolution) are
modelled as plain constructors, since only the data handed to them is
specified here.
-/

set_option maxHeartbeats 1000000
set_option maxRecDepth 8000

/-- Errors that the embedded Python code can raise. -/
inductive PyError where
  | keyError
  | valueError
  | indexError
  | overflowError
  | stopIteration
  deriving DecidableEq

/-- Cross-section specification.  Resolution of a cross-section is an
external collaborator; the router only threads the resolved value through. -/
inductive CrossSection where
  | strip
  | named (id : ℕ)
  deriving DecidableEq

/-- Model of gf.get_cross_section: an external resolver; the router passes
the result on unchanged, so it is modelled as the identity. -/
def get_cross_section (cs : CrossSection) : CrossSection := cs

/-- A port: a center position and an orientation that is one of
0, 90, 180, 270 degrees, or none (unconstrained), mirroring the keys of
the orientation dictionaries in astar_routing. -/
structure Port where
  center : ℚ × ℚ
  orientation : Option ℚ
  deriving DecidableEq

/-- A routed result, as produced by the two external route builders the
search hands its data to: get_route_from_waypoints on success and
route_manhattan on fallback. -/
inductive Route where
  | fromWaypoints (points : List (ℚ × ℚ)) (cs : CrossSection)
  | manhattan (input_port output_port : Port) (cs : CrossSection)
  deriving DecidableEq

/-- The component interface consumed by the router: its bounding box
(c.bbox, as ((xmin, ymin), (xmax, ymax))) and the bounding boxes of its
child references (ref.bbox for ref in c.references). -/
structure Component where
  bbox : (ℚ × ℚ) × (ℚ × ℚ)
  references : List ((ℚ × ℚ) × (ℚ × ℚ))
  deriving DecidableEq

/-- A search node, as in the Python Node class: a parent link (none for
the two anchor nodes), a position, and the costs g, h, f.  The Python
constructor initialises g = h = 0 and f = g + h = 0; creation sites in
the embedding spell those zeros out. -/
inductive Node where
  | root (position : ℚ × ℚ) (g h f : ℚ) : Node
  | child (parent : Node) (position : ℚ × ℚ) (g h f : ℚ) : Node
  deriving DecidableEq

def Node.position : Node → ℚ × ℚ
  | .root p _ _ _ => p
  | .child _ p _ _ _ => p

def Node.g : Node → ℚ
  | .root _ g _ _ => g
  | .child _ _ g _ _ => g

def Node.h : Node → ℚ
  | .root _ _ h _ => h
  | .child _ _ _ h _ => h

def Node.f : Node → ℚ
  | .root _ _ _ f => f
  | .child _ _ _ _ f => f

/-- Length of the parent chain above a node. -/
def Node.depth : Node → ℕ
  | .root _ _ _ _ => 0
  | .child par _ _ _ _ => par.depth + 1

/-- The path-reconstruction loop of the source: starting from the goal
node, append each position and move to the parent, producing the
positions in goal-to-root order (the source then reverses the list). -/
def tracePositions : Node → List (ℚ × ℚ)
  | .root p _ _ _ => [p]
  | .child par p _ _ _ => p :: tracePositions par

/-- In-place update of g, h, f on a node, mirroring the three field
assignments performed on each generated neighbour. -/
def setCosts : Node → ℚ → ℚ → ℚ → Node
  | .root p _ _ _, g, h, f => .root p g h f
  | .child par p _ _ _, g, h, f => .child par p g h f

/-- Python int() applied to a float: truncation toward zero. -/
def pyTrunc (q : ℚ) : ℤ :=
  if 0 ≤ q then ⌊q⌋ else ⌈q⌉

/-- Python round() on a float: round half to even (banker's rounding). -/
def pyRound (q : ℚ) : ℤ :=
  let fl := ⌊q⌋
  let r := q - fl
  if r < 1/2 then fl
  else if 1/2 < r then fl + 1
  else if fl % 2 = 0 then fl else fl + 1

/-- np.round(·, 3): round half to even at the third decimal. -/
def npRound3 (q : ℚ) : ℚ :=
  (pyRound (q * 1000) : ℚ) / 1000

/-- np.isclose(a, b, atol=1) with numpy's default rtol = 1e-5:
the test |a - b| ≤ atol + rtol * |b|. -/
def npIsClose (a b : ℚ) : Bool :=
  |a - b| ≤ 1 + |b| / 100000

/-- int(x / y) on Python floats, with the source's two failure modes:
division of a nonzero float by 0.0 yields infinity and int(inf) raises
OverflowError, while 0.0 / 0.0 yields nan and int(nan) raises ValueError. -/
def pyIntDiv (a b : ℚ) : Except PyError ℤ :=
  if b = 0 then (if a = 0 then .error .valueError else .error .overflowError)
  else .ok (pyTrunc (a / b))

/-- np.linspace(a, b, n, endpoint=True): n evenly spaced samples from a
to b inclusive.  A negative n raises ValueError; n = 0 gives an empty
array and n = 1 gives [a]. -/
def linspace (a b : ℚ) (n : ℤ) : Except PyError (List ℚ) :=
  if n < 0 then .error .valueError
  else if n = 0 then .ok []
  else if n = 1 then .ok [a]
  else .ok ((List.range n.toNat).map (fun i => a + (b - a) * i / (n.toNat - 1)))

/-- np.argmin(np.abs(xs - t)) together with the tracked minimal value:
first index attaining the minimal distance (numpy's argmin returns the
first occurrence of the minimum). -/
def argminAuxV (t : ℚ) : List ℚ → ℕ → ℚ → ℕ → ℕ × ℚ
  | [], _, bestd, best => (best, bestd)
  | a :: rest, i, bestd, best =>
    if |a - t| < bestd then argminAuxV t rest (i + 1) |a - t| i
    else argminAuxV t rest (i + 1) bestd best

/-- np.abs(xs - t).argmin(): index of the list element nearest to t,
first occurrence winning ties. -/
def argminAbs (xs : List ℚ) (t : ℚ) : ℕ :=
  match xs with
  | [] => 0
  | a :: rest => (argminAuxV t rest 1 |a - t| 0).1

/-- Map with the element's index, used to model a numpy 2-D slice
assignment as an index-conditional update. -/
def mapWithIdx (f : ℕ → α → β) : ℕ → List α → List β
  | _, [] => []
  | i, a :: rest => f i a :: mapWithIdx f (i + 1) rest

/-- grid[i][j], with the convention that the row-major grid is a list of
rows indexed by the x-axis index.  The source only reads indices that
exist by construction, so out-of-range defaults are never exercised. -/
def getCell (g : List (List ℚ)) (i j : ℕ) : ℚ :=
  (g.getD i []).getD j 0

/-- The obstacle-marking step of _generate_grid for one reference: find
the axis indices nearest to the reference bounding box corners and set
grid[xmin:xmax, ymin:ymax] = 1 (numpy slices exclude the upper index). -/
def markRef (xs ys : List ℚ) (ref : (ℚ × ℚ) × (ℚ × ℚ)) (g : List (List ℚ)) :
    List (List ℚ) :=
  let xminI := argminAbs xs ref.1.1
  let xmaxI := argminAbs xs ref.2.1
  let yminI := argminAbs ys ref.1.2
  let ymaxI := argminAbs ys ref.2.2
  mapWithIdx
    (fun i row =>
      if xminI ≤ i ∧ i < xmaxI then
        mapWithIdx (fun j v => if yminI ≤ j ∧ j < ymaxI then 1 else v) 0 row
      else row)
    0 g

/-- _generate_grid: build the two axes with np.linspace over the
component bounding box at the given resolution, mark every reference
bounding box on a zero-initialised occupancy grid, and return the grid
and axes rounded to 3 decimals.  np.meshgrid followed by x[0] and
y[:, 0] raises IndexError when either axis is empty; the sample counts
are int(extent / resolution); marking happens before the final
rounding, exactly as in the source. -/
def _generate_grid (c : Component) (resolution : ℚ) :
    Except PyError (List (List ℚ) × List ℚ × List ℚ) :=
  let bbox := c.bbox
  match pyIntDiv (bbox.2.1 - bbox.1.1) resolution with
  | .error e => .error e
  | .ok nx =>
    match linspace bbox.1.1 bbox.2.1 nx with
    | .error e => .error e
    | .ok xs =>
      match pyIntDiv (bbox.2.2 - bbox.1.2) resolution with
      | .error e => .error e
      | .ok ny =>
        match linspace bbox.1.2 bbox.2.2 ny with
        | .error e => .error e
        | .ok ys =>
          if xs.isEmpty ∨ ys.isEmpty then .error .indexError
          else
            let grid0 := List.replicate xs.length (List.replicate ys.length (0 : ℚ))
            let grid := c.references.foldl (fun g ref => markRef xs ys ref g) grid0
            .ok (grid.map (fun row => row.map npRound3),
                 xs.map npRound3, ys.map npRound3)

/-- x.min() on a nonempty numpy array: fold of min over the elements. -/
def listMin : List ℚ → ℚ
  | [] => 0
  | a :: rest => rest.foldl min a

/-- x.max() on a nonempty numpy array: fold of max over the elements. -/
def listMax : List ℚ → ℚ
  | [] => 0
  | a :: rest => rest.foldl max a

/-- next(i for i, v in enumerate(xs) if np.isclose(v, p, atol=1)):
index of the first axis entry close to p, or none, in which case the
Python generator raises StopIteration. -/
def firstCloseIdxAux (p : ℚ) : List ℚ → Option ℕ
  | [] => none
  | a :: rest =>
    if npIsClose a p then some 0
    else (firstCloseIdxAux p rest).map (· + 1)

def firstCloseIdx (xs : List ℚ) (p : ℚ) : Option ℕ :=
  firstCloseIdxAux p xs

/-- The candidate scan of _generate_neighbours: walk the four offsets in
source order (south, north, west, east); drop a candidate outside the
axis ranges; look up the nearest cell on each axis with tolerance-1
matching and drop the candidate if that cell is occupied; a failed
lookup raises StopIteration, aborting the whole generation.  Returns
the accepted candidate positions in order. -/
def scanOffsets (grid : List (List ℚ)) (xs ys : List ℚ) (pos : ℚ × ℚ) :
    List (ℚ × ℚ) → Except PyError (List (ℚ × ℚ))
  | [] => .ok []
  | off :: rest =>
    let np := (pos.1 + off.1, pos.2 + off.2)
    if np.1 > listMax xs ∨ np.1 < listMin xs ∨ np.2 > listMax ys ∨ np.2 < listMin ys then
      scanOffsets grid xs ys pos rest
    else
      match firstCloseIdx xs np.1 with
      | none => .error .stopIteration
      | some i =>
        match firstCloseIdx ys np.2 with
        | none => .error .stopIteration
        | some j =>
          if getCell grid i j = 1 then scanOffsets grid xs ys pos rest
          else (scanOffsets grid xs ys pos rest).map (fun l => np :: l)

/-- _generate_neighbours: each accepted candidate position becomes
Node(current_node, position), i.e. a child of the current node with the
constructor's zero-initialised costs. -/
def _generate_neighbours (current_node : Node) (grid : List (List ℚ))
    (xs ys : List ℚ) (resolution : ℚ) : Except PyError (List Node) :=
  (scanOffsets grid xs ys current_node.position
      [(0, -resolution), (0, resolution), (-resolution, 0), (resolution, 0)]).map
    (fun l => l.map (fun p => Node.child current_node p 0 0 0))

/-- The open/closed lists of the search loop. -/
structure SearchState where
  openList : List Node
  closed : List Node
  deriving DecidableEq

/-- The linear scan selecting the expansion victim: starting from index
0, an index replaces the current one only on a strictly smaller f, so
the first occurrence of the minimal f wins. -/
def minFIdxAux : List Node → ℚ → ℕ → ℕ → ℕ
  | [], _, _, best => best
  | n :: rest, bestf, i, best =>
    if n.f < bestf then minFIdxAux rest n.f (i + 1) i
    else minFIdxAux rest bestf (i + 1) best

def minFIdx : List Node → ℕ
  | [] => 0
  | n :: rest => minFIdxAux rest n.f 1 0

/-- Everything the loop body reads but never writes: the grid, the axes,
the resolution, the end node, the two ports and the resolved
cross-section. -/
structure AstarEnv where
  grid : List (List ℚ)
  xs : List ℚ
  ys : List ℚ
  resolution : ℚ
  endNode : Node
  inPort : Port
  outPort : Port
  cs : CrossSection
  deriving DecidableEq

/-- Result of a full astar_routing invocation.  running carries the
search state when the supplied fuel ran out with the while-loop still
going: the real code would simply keep iterating from that state. -/
inductive AstarOutcome where
  | route (warned : Bool) (r : Route)
  | pyerror (e : PyError)
  | running (s : SearchState)
  deriving DecidableEq

/-- One iteration of the while-loop either leaves the loop with a final
outcome or continues with a new state. -/
inductive StepRes where
  | finished (out : AstarOutcome)
  | next (s : SearchState)
  deriving DecidableEq

def defaultNode : Node := Node.root (0, 0) 0 0 0

/-- One iteration of the search while-loop.  An empty open list exits
the loop: the source then warns and returns the Manhattan fallback,
which is modelled by the finished route with warned = true.  Otherwise
the first minimal-f node is popped onto the closed list; if its
position matches the end node componentwise the traced path is
reversed, wrapped in the true port centers and handed to the waypoint
route builder (warned = false).  Otherwise neighbours are generated and
every one of them is appended to the open list with freshly computed
costs: the source's two membership scans over closed and open are
no-ops, because the continue statements they contain only advance those
inner scans themselves, and Node equality in Python is object identity,
which a freshly constructed neighbour never satisfies; the embedding
therefore (faithfully) performs no filtering here. -/
def astarStep (env : AstarEnv) (s : SearchState) : StepRes :=
  match s.openList with
  | [] => .finished (.route true (Route.manhattan env.inPort env.outPort env.cs))
  | a :: rest =>
    let ol := a :: rest
    let ci := minFIdx ol
    let current := ol.getD ci defaultNode
    let rem := ol.eraseIdx ci
    let closed2 := s.closed ++ [current]
    if current.position.1 = env.endNode.position.1 ∧
        current.position.2 = env.endNode.position.2 then
      .finished (.route false (Route.fromWaypoints
        (env.inPort.center :: ((tracePositions current).reverse ++ [env.outPort.center]))
        env.cs))
    else
      match _generate_neighbours current env.grid env.xs env.ys env.resolution with
      | .error e => .finished (.pyerror e)
      | .ok nbrs =>
        let costed := nbrs.map (fun nb =>
          let g := current.g + env.resolution
          let h := (nb.position.1 - env.endNode.position.1) ^ 2 +
                   (nb.position.2 - env.endNode.position.2) ^ 2
          setCosts nb g h (g + h))
        .next { openList := rem ++ costed, closed := closed2 }

/-- The search while-loop, indexed by fuel. -/
def astarRun (env : AstarEnv) : ℕ → SearchState → AstarOutcome
  | 0, s => .running s
  | n + 1, s =>
    match astarStep env s with
    | .finished out => out
    | .next s2 => astarRun env n s2

/-- The orientation dictionaries of astar_routing: a recognised
orientation maps to a step of one resolution unit along its axis, an
absent orientation to the zero step, and any other value raises
KeyError. -/
def orientStep (o : Option ℚ) (resolution : ℚ) : Except PyError (ℚ × ℚ) :=
  match o with
  | none => .ok (0, 0)
  | some a =>
    if a = 0 then .ok (resolution, 0)
    else if a = 90 then .ok (0, resolution)
    else if a = 180 then .ok (-resolution, 0)
    else if a = 270 then .ok (0, -resolution)
    else .error .keyError

/-- The anchor-node position: round(port.x + step.x), round(port.y + step.y). -/
def anchorPos (center step : ℚ × ℚ) : ℚ × ℚ :=
  ((pyRound (center.1 + step.1) : ℚ), (pyRound (center.2 + step.2) : ℚ))

/-- astar_routing: resolve the cross-section, build the grid, look up
both orientation steps (in that order, as in the source), create the
anchored start and end nodes with g = h = f = 0, and run the search
from the singleton open list.  fuel bounds the number of while-loop
iterations the embedding is allowed to take. -/
def astar_routing (c : Component) (input_port output_port : Port)
    (resolution : ℚ) (cross_section : CrossSection) (fuel : ℕ) : AstarOutcome :=
  let cs := get_cross_section cross_section
  match _generate_grid c resolution with
  | .error e => .pyerror e
  | .ok (grid, xs, ys) =>
    match orientStep input_port.orientation resolution with
    | .error e => .pyerror e
    | .ok instep =>
      match orientStep output_port.orientation resolution with
      | .error e => .pyerror e
      | .ok outstep =>
        let start_node := Node.root (anchorPos input_port.center instep) 0 0 0
        let end_node := Node.root (anchorPos output_port.center outstep) 0 0 0
        astarRun
          { grid := grid, xs := xs, ys := ys, resolution := resolution,
            endNode := end_node, inPort := input_port, outPort := output_port,
            cs := cs }
          fuel
          { openList := [start_node], closed := [] }

instance {ε α : Type} [DecidableEq ε] [DecidableEq α] : DecidableEq (Except ε α) := fun x y =>
  match x, y with
  | .ok a, .ok b =>
    if h : a = b then .isTrue (by rw [h]) else .isFalse (fun hc => h (Except.ok.inj hc))
  | .ok _, .error _ => .isFalse (fun hc => Except.noConfusion hc)
  | .error _, .ok _ => .isFalse (fun hc => Except.noConfusion hc)
  | .error a, .error b =>
    if h : a = b then .isTrue (by rw [h]) else .isFalse (fun hc => h (Except.error.inj hc))

/-- A concrete layout: bounding box (0,0)-(3,3) with an obstacle near the
lower-left corner (rasterized to grid cell (0,0)) and a small obstacle at
the upper-right corner (rasterized to no cell at all). -/
def comp2 : Component :=
  { bbox := ((0, 0), (3, 3)),
    references := [((0, 0), (1, 1)), ((13/5, 13/5), (3, 3))] }

/-- Input port at (0,3) facing 270 degrees: the start anchor is (0,2). -/
def pIn2 : Port := { center := (0, 3), orientation := some 270 }

/-- Output port at (3, 3/2) facing 0 degrees: the end anchor is
(round(3+1), round(3/2)) = (4, 2), one resolution step OUTSIDE the grid,
so no generated neighbour can ever match it. -/
def pOut2 : Port := { center := (3, 3/2), orientation := some 0 }

/-- The grid _generate_grid computes for comp2 at resolution 1. -/
def G2 : List (List ℚ) := [[1, 0, 0], [0, 0, 0], [0, 0, 0]]

/-- The axis _generate_grid computes for comp2 at resolution 1. -/
def XS2 : List ℚ := [0, 3/2, 3]

/-- The search environment astar_routing builds for comp2 / pIn2 / pOut2
at resolution 1. -/
def env2 : AstarEnv :=
  { grid := G2, xs := XS2, ys := XS2, resolution := 1,
    endNode := Node.root (4, 2) 0 0 0, inPort := pIn2, outPort := pOut2,
    cs := CrossSection.strip }

/-- The initial search state for comp2: just the start anchor (0,2). -/
def init2 : SearchState := { openList := [Node.root (0, 2) 0 0 0], closed := [] }

/-- The integer positions of comp2's layout that are in bounds and whose
tolerance-1 nearest cell is free: all of 0..3 x 0..3 except the four
positions snapping to the occupied cell (0,0).  Every position a search
node can ever occupy on this instance lies in this list. -/
def Plist : List (ℚ × ℚ) :=
  [(0, 2), (0, 3), (1, 2), (1, 3),
   (2, 0), (2, 1), (2, 2), (2, 3),
   (3, 0), (3, 1), (3, 2), (3, 3)]

/-- Invariant driving the non-termination proof on comp2: the open list
is never empty and every open node sits on a free in-bounds position. -/
def IsInv (s : SearchState) : Prop :=
  s.openList ≠ [] ∧ ∀ nd ∈ s.openList, nd.position ∈ Plist

instance (s : SearchState) : Decidable (IsInv s) := by
  unfold IsInv; infer_instance

/-- Decidable check used by the invariant: from position p the candidate
scan succeeds, yields at least one neighbour, and all of them stay in
Plist. -/
def nbrsOkB (p : ℚ × ℚ) : Bool :=
  match scanOffsets G2 XS2 XS2 p [(0, -1), (0, 1), (-1, 0), (1, 0)] with
  | .ok l => !l.isEmpty && l.all (fun q => decide (q ∈ Plist))
  | .error _ => false

/-- The state after n iterations of the loop on the comp2 instance
(only meaningful while the loop is still running, which on this
instance is forever). -/
def stateAfter (n : ℕ) : SearchState :=
  match astarRun env2 n init2 with
  | .running s => s
  | _ => { openList := [], closed := [] }

/-- Does some coordinate currently sit in the open and the closed list
at the same time? -/
def overlapB (s : SearchState) : Bool :=
  s.openList.any (fun nd => s.closed.any (fun nd2 => decide (nd.position = nd2.position)))

/-- Does the list of positions contain a duplicate? -/
def dupPosB : List (ℚ × ℚ) → Bool
  | [] => false
  | p :: rest => rest.any (fun q => decide (q = p)) || dupPosB rest

/-- Has some coordinate been expanded (closed) more than once? -/
def dupClosedB (s : SearchState) : Bool :=
  dupPosB (s.closed.map Node.position)

/-- Layout for the coarse-resolution crash: bounding box
(0,0)-(100,100); at resolution 50 the axes are [0, 100]. -/
def comp3 : Component :=
  { bbox := ((0, 0), (100, 100)), references := [((0, 0), (1, 1))] }

def pA3 : Port := { center := (0, 0), orientation := none }

def pB3 : Port := { center := (100, 100), orientation := none }

/-- Layout for the under-reported occupancy: bounding box (0,0)-(4,4)
at resolution 1 gives axes [0, 4/3, 8/3, 4]; the obstacle
(0.9,0.9)-(2.7,2.7) contains the cell coordinate 8/3 on both axes, yet
the half-open argmin slice stops short of index 2. -/
def comp5 : Component :=
  { bbox := ((0, 0), (4, 4)), references := [((9/10, 9/10), (27/10, 27/10))] }

/-- Modelled from the spec (for comparison with the code): conservative
rasterization for axis-aligned obstacles, i.e. every grid cell whose
physical coordinate lies inside an obstacle rectangle of the layout is
marked occupied. -/
def conservativeRaster (c : Component) (res : ℚ) : Prop :=
  ∀ g xs ys, _generate_grid c res = .ok (g, xs, ys) →
    ∀ ref ∈ c.references, ∀ i j, i < xs.length → j < ys.length →
      ref.1.1 ≤ xs.getD i 0 → xs.getD i 0 ≤ ref.2.1 →
      ref.1.2 ≤ ys.getD j 0 → ys.getD j 0 ≤ ref.2.2 →
      getCell g i j = 1

/-- Component with a degenerate bounding box (zero extent along x). -/
def compDeg : Component := { bbox := ((0, 0), (0, 5)), references := [] }

/-- A port whose orientation is outside the five recognized values. -/
def p45 : Port := { center := (0, 0), orientation := some 45 }

/-- An orientation outside the five recognized dictionary keys. -/
def unrecognizedOrient : Option ℚ → Prop
  | none => False
  | some a => a ≠ 0 ∧ a ≠ 90 ∧ a ≠ 180 ∧ a ≠ 270

instance : (o : Option ℚ) → Decidable (unrecognizedOrient o)
  | none => .isFalse (fun h => h)
  | some a => inferInstanceAs (Decidable (a ≠ 0 ∧ a ≠ 90 ∧ a ≠ 180 ∧ a ≠ 270))

/-- Witness environment with a reachable goal: empty 2 x 2 grid, start
(0,0), goal (1,0). -/
def envW8 : AstarEnv :=
  { grid := [[0, 0], [0, 0]], xs := [0, 1], ys := [0, 1], resolution := 1,
    endNode := Node.root (1, 0) 0 0 0,
    inPort := { center := (0, 0), orientation := none },
    outPort := { center := (1, 0), orientation := none },
    cs := CrossSection.strip }

/-- Witness environment with a distant goal: empty 2 x 2 grid, start
(0,0), goal (5,5); one expansion step creates two costed neighbours. -/
def envW6 : AstarEnv :=
  { grid := [[0, 0], [0, 0]], xs := [0, 1], ys := [0, 1], resolution := 1,
    endNode := Node.root (5, 5) 0 0 0,
    inPort := { center := (0, 0), orientation := none },
    outPort := { center := (5, 5), orientation := none },
    cs := CrossSection.strip }

def nW0 : Node := Node.root (0, 0) 0 0 0

def initW : SearchState := { openList := [nW0], closed := [] }

/-- Well-formed cost bookkeeping, as an invariant of the search: the two
anchor roots carry g = 0, and every node created during the search is a
child whose g is its parent's g plus one resolution unit, whose h is
the squared Euclidean distance from its position to the goal position,
and whose f is g + h. -/
inductive WfNode (res : ℚ) (goal : ℚ × ℚ) : Node → Prop where
  | root : ∀ p g h f, g = 0 → WfNode res goal (Node.root p g h f)
  | child : ∀ par p g h f, WfNode res goal par →
      g = par.g + res →
      h = (p.1 - goal.1) ^ 2 + (p.2 - goal.2) ^ 2 →
      f = g + h →
      WfNode res goal (Node.child par p g h f)

theorem routing2_eq (fuel : ℕ) :
    astar_routing comp2 pIn2 pOut2 1 CrossSection.strip fuel = astarRun env2 fuel init2 := by
  with_unfolding_all rfl

/-- C1: the claimed frontier invariant fails on the code.  Running the
router on the concrete layout comp2, after two expansion steps the
coordinate (0,2) is in the open and the closed list at the same time (a
closed coordinate was re-added to the frontier), and after seven
expansion steps the closed list holds the coordinate (3,2) twice (a
coordinate was expanded twice): the two membership scans in the source
are no-ops, so every generated neighbour is appended unconditionally. -/
theorem astar_frontier_invariant_violated :
    astar_routing comp2 pIn2 pOut2 1 CrossSection.strip 2 = .running (stateAfter 2) ∧
    overlapB (stateAfter 2) = true ∧
    astar_routing comp2 pIn2 pOut2 1 CrossSection.strip 7 = .running (stateAfter 7) ∧
    dupClosedB (stateAfter 7) = true := by
  refine ⟨routing2_eq 2 ▸ ?_, ?_, routing2_eq 7 ▸ ?_, ?_⟩ <;> with_unfolding_all rfl

/-- C3 counterexample: the nearest-cell lookup keeps its fixed absolute
tolerance of 1 at every resolution, so snapping does NOT remain correct
as resolution changes: at resolution 50 over the layout comp3 the axes
are [0, 100] and the very first expansion generates the in-bounds
candidate (0, 50) whose y-lookup finds no axis entry within tolerance,
raising StopIteration and crashing the routing call. -/
theorem tolerance_not_scaled_cex :
    astar_routing comp3 pA3 pB3 50 CrossSection.strip 1 = .pyerror .stopIteration ∧
    listMin [(0 : ℚ), 100] ≤ 50 ∧ (50 : ℚ) ≤ listMax [(0 : ℚ), 100] ∧
    firstCloseIdx [(0 : ℚ), 100] 50 = none := by
  refine ⟨?_, ?_, ?_, ?_⟩ <;> with_unfolding_all decide

/-- C4 counterexample: configuration errors are NOT reported before grid
work begins.  On an input whose port orientation is unrecognized (45)
AND whose bounding box is degenerate, the reported fatal error is the
grid-construction IndexError, not the orientation KeyError: the grid is
built before the orientation lookup ever runs. -/
theorem config_error_after_grid_cex :
    unrecognizedOrient p45.orientation ∧
    astar_routing compDeg p45 pA3 1 CrossSection.strip 1 = .pyerror .indexError ∧
    PyError.indexError ≠ PyError.keyError := by
  refine ⟨?_, ?_, ?_⟩ <;> with_unfolding_all decide

/-- C5 counterexample: rasterization is NOT conservative for
axis-aligned rectangles.  On the layout comp5 at resolution 1 the axes
are [0, 1.333, 2.667, 4]; the obstacle (0.9,0.9)-(2.7,2.7) contains the
cell coordinate (2.667, 2.667) = (index 2, index 2), but the half-open
argmin slice marks only index 1, leaving that inside cell free. -/
theorem raster_not_conservative_cex : ¬ conservativeRaster comp5 1 := by
  intro hcons
  have h2 := hcons [[0, 0, 0, 0], [0, 1, 0, 0], [0, 0, 0, 0], [0, 0, 0, 0]]
    [0, 1333/1000, 2667/1000, 4] [0, 1333/1000, 2667/1000, 4]
    (by with_unfolding_all rfl)
    ((9/10, 9/10), (27/10, 27/10)) (by with_unfolding_all decide) 2 2
    (by with_unfolding_all decide) (by with_unfolding_all decide)
    (by with_unfolding_all decide) (by with_unfolding_all decide)
    (by with_unfolding_all decide) (by with_unfolding_all decide)
  exact absurd h2 (by with_unfolding_all decide)

/-- C7 counterexample: the search anchor is NOT the port center offset
by exactly one step: the sum is rounded to integers.  A port at
(0.3, 0) facing 0 degrees at resolution 1 anchors at (1, 0), not at
(1.3, 0); an unconstrained port at (0.3, 0) anchors at (0, 0), not at
its exact center. -/
theorem anchor_offset_not_exact_cex :
    anchorPos (3/10, 0) (1, 0) ≠ ((3/10 : ℚ) + 1, 0) ∧
    anchorPos (3/10, 0) (0, 0) ≠ ((3/10 : ℚ), 0) := by
  constructor <;> with_unfolding_all decide

/-- C9: whenever the frontier is empty at the top of a loop iteration,
the search warns (warned = true) and returns the Manhattan fallback
applied to the two ports and the resolved cross-section - never an
unhandled failure or an empty result. -/
theorem exhaustion_fallback (env : AstarEnv) (fuel : ℕ) (s : SearchState)
    (h : s.openList = []) :
    astarRun env (fuel + 1) s =
      .route true (Route.manhattan env.inPort env.outPort env.cs) := by
  simp [astarRun, astarStep, h]

theorem exhaustion_fallback_witness :
    astarRun envW8 1 { openList := [], closed := [] } =
      .route true (Route.manhattan envW8.inPort envW8.outPort envW8.cs) :=
  exhaustion_fallback envW8 0 { openList := [], closed := [] } rfl

/-- C10 counterexample: the nearest-cell lookup of the neighbour
generator can fail for an in-bounds candidate.  With axes [0, 100]
(grid spacing 100) and resolution 50, the candidate (0, 50) passes the
bounds check but no axis entry is within tolerance 1 of 50, so the
first-match search raises StopIteration: the exception branch is
reachable. -/
theorem neighbour_lookup_fails_cex :
    _generate_neighbours (Node.root (0, 0) 0 0 0) [[0, 0], [0, 0]]
        [0, 100] [0, 100] 50 = .error .stopIteration ∧
    listMin [(0 : ℚ), 100] ≤ 50 ∧ (50 : ℚ) ≤ listMax [(0 : ℚ), 100] := by
  refine ⟨?_, ?_, ?_⟩ <;> with_unfolding_all decide

/-- C3 amended: the nearest-cell lookup tolerance is fixed, not scaled
to resolution: an axis entry matches the candidate p exactly when
|entry - p| ≤ 1 + |p|/100000 (atol = 1 plus numpy's default relative
term) - a criterion in which the resolution does not occur at all. -/
theorem nearest_lookup_tolerance_fixed (xs : List ℚ) (p : ℚ) :
    (firstCloseIdx xs p).isSome ↔ ∃ x ∈ xs, |x - p| ≤ 1 + |p| / 100000 := by
  unfold firstCloseIdx
  induction xs with
  | nil => simp [firstCloseIdxAux]
  | cons a rest ih =>
    by_cases h : npIsClose a p
    · have ha : |a - p| ≤ 1 + |p| / 100000 := by simpa [npIsClose] using h
      simp only [firstCloseIdxAux, h, if_true, Option.isSome_some, true_iff]
      exact ⟨a, by simp, ha⟩
    · have ha : ¬ |a - p| ≤ 1 + |p| / 100000 := by simpa [npIsClose] using h
      simp only [firstCloseIdxAux, h, if_false, Bool.false_eq_true]
      have hmap : (Option.map (fun x => x + 1) (firstCloseIdxAux p rest)).isSome =
          (firstCloseIdxAux p rest).isSome := by
        cases firstCloseIdxAux p rest <;> rfl
      rw [hmap, ih]
      constructor
      · rintro ⟨x, hx, hle⟩
        exact ⟨x, by simp [hx], hle⟩
      · rintro ⟨x, hx, hle⟩
        rcases List.mem_cons.mp hx with rfl | hx2
        · exact absurd hle ha
        · exact ⟨x, hx2, hle⟩

theorem pyRound_intCast (n : ℤ) : pyRound (n : ℚ) = n := by
  unfold pyRound
  rw [Int.floor_intCast]
  norm_num

theorem pyRound_den_one (q : ℚ) (h : q.den = 1) : (pyRound q : ℚ) = q := by
  have hq : ((q.num : ℚ)) = q := (Rat.den_eq_one_iff q).mp h
  rw [← hq, pyRound_intCast]

/-- C7 amended: each recognised orientation maps to the claimed step
vector scaled by the resolution (and an absent orientation to the zero
step), and the anchor position is the componentwise Python rounding of
center + step; in particular, whenever center + step has integer
coordinates the anchor equals center + step exactly (so an
unconstrained port with integer center anchors at its exact center). -/
theorem anchor_orientation_map :
    (∀ r : ℚ, orientStep (some 0) r = .ok (r, 0) ∧
      orientStep (some 90) r = .ok (0, r) ∧
      orientStep (some 180) r = .ok (-r, 0) ∧
      orientStep (some 270) r = .ok (0, -r) ∧
      orientStep none r = .ok (0, 0)) ∧
    (∀ cx cy sx sy : ℚ, (cx + sx).den = 1 → (cy + sy).den = 1 →
      anchorPos (cx, cy) (sx, sy) = (cx + sx, cy + sy)) := by
  constructor
  · intro r
    refine ⟨?_, ?_, ?_, ?_, ?_⟩ <;> norm_num [orientStep]
  · intro cx cy sx sy hx hy
    simp only [anchorPos]
    rw [pyRound_den_one _ hx, pyRound_den_one _ hy]

theorem anchor_orientation_map_witness :
    (orientStep (some 0) 2 = .ok (2, 0) ∧ orientStep (some 90) 2 = .ok (0, 2) ∧
      orientStep (some 180) 2 = .ok (-2, 0) ∧ orientStep (some 270) 2 = .ok (0, -2) ∧
      orientStep none 2 = .ok (0, 0)) ∧
    anchorPos (1/2, 0) (1/2, 3) = ((1 : ℚ)/2 + 1/2, (0 : ℚ) + 3) :=
  ⟨anchor_orientation_map.1 2,
   anchor_orientation_map.2 (1/2) 0 (1/2) 3
     (by with_unfolding_all decide) (by with_unfolding_all decide)⟩

theorem orientStep_unrecognized (o : Option ℚ) (res : ℚ)
    (h : unrecognizedOrient o) : orientStep o res = .error .keyError := by
  match o with
  | none => exact h.elim
  | some a =>
    obtain ⟨h0, h90, h180, h270⟩ := h
    simp [orientStep, h0, h90, h180, h270]

theorem pyTrunc_nonpos (q : ℚ) (h : q ≤ 0) : pyTrunc q ≤ 0 := by
  unfold pyTrunc
  split
  · have hq : q = 0 := le_antisymm h (by assumption)
    simp [hq]
  · exact Int.ceil_le.mpr (by exact_mod_cast h)

theorem pyTrunc_zero : pyTrunc 0 = 0 := by
  norm_num [pyTrunc]

/-- C4 amended: all three configuration faults are fatal, but not
before grid work: with a valid grid an unrecognized orientation raises
KeyError only after the grid is fully constructed (first conjunct: the
grid-construction hypothesis feeds the orientation error), while a
non-positive resolution (on an ordered bounding box) and a zero-extent
bounding box make grid construction itself fail (second and third
conjuncts). -/
theorem config_errors_after_grid :
    (∀ (c : Component) (ip op : Port) (res : ℚ) (cs : CrossSection) (fuel : ℕ)
        (g : List (List ℚ)) (xs ys : List ℚ),
        _generate_grid c res = .ok (g, xs, ys) →
        unrecognizedOrient ip.orientation →
        astar_routing c ip op res cs fuel = .pyerror .keyError) ∧
    (∀ (c : Component) (res : ℚ), c.bbox.1.1 ≤ c.bbox.2.1 → res ≤ 0 →
        ∃ e, _generate_grid c res = .error e) ∧
    (∀ (c : Component) (res : ℚ), 0 < res → c.bbox.2.1 = c.bbox.1.1 →
        ∃ e, _generate_grid c res = .error e) := by
  refine ⟨?_, ?_, ?_⟩
  · intro c ip op res cs fuel g xs ys hg ho
    simp only [astar_routing, hg, orientStep_unrecognized ip.orientation res ho]
  · intro c res hx hres
    rcases lt_or_eq_of_le hres with hlt | heq
    · have hb : res ≠ 0 := ne_of_lt hlt
      have hq : (c.bbox.2.1 - c.bbox.1.1) / res ≤ 0 :=
        div_nonpos_iff.mpr (Or.inl ⟨sub_nonneg.mpr hx, le_of_lt hlt⟩)
      have hnx : pyIntDiv (c.bbox.2.1 - c.bbox.1.1) res =
          .ok (pyTrunc ((c.bbox.2.1 - c.bbox.1.1) / res)) := by
        simp [pyIntDiv, hb]
      have hn0 : pyTrunc ((c.bbox.2.1 - c.bbox.1.1) / res) ≤ 0 := pyTrunc_nonpos _ hq
      rcases lt_or_eq_of_le hn0 with hlt2 | heq2
      · have hxs : linspace c.bbox.1.1 c.bbox.2.1
            (pyTrunc ((c.bbox.2.1 - c.bbox.1.1) / res)) = .error .valueError := by
          simp [linspace, hlt2]
        exact ⟨.valueError, by simp [_generate_grid, hnx, hxs]⟩
      · have hxs : linspace c.bbox.1.1 c.bbox.2.1
            (pyTrunc ((c.bbox.2.1 - c.bbox.1.1) / res)) = .ok [] := by
          simp [linspace, heq2]
        have hny : pyIntDiv (c.bbox.2.2 - c.bbox.1.2) res =
            .ok (pyTrunc ((c.bbox.2.2 - c.bbox.1.2) / res)) := by
          simp [pyIntDiv, hb]
        cases hys : linspace c.bbox.1.2 c.bbox.2.2
            (pyTrunc ((c.bbox.2.2 - c.bbox.1.2) / res)) with
        | error e => exact ⟨e, by simp [_generate_grid, hnx, hxs, hny, hys]⟩
        | ok ys => exact ⟨.indexError, by simp [_generate_grid, hnx, hxs, hny, hys]⟩
    · subst heq
      by_cases ha : c.bbox.2.1 - c.bbox.1.1 = 0
      · exact ⟨.valueError, by simp [_generate_grid, pyIntDiv, ha]⟩
      · exact ⟨.overflowError, by simp [_generate_grid, pyIntDiv, ha]⟩
  · intro c res hres hdeg
    have hb : res ≠ 0 := ne_of_gt hres
    have ha : c.bbox.2.1 - c.bbox.1.1 = 0 := sub_eq_zero.mpr hdeg
    have hnx : pyIntDiv (c.bbox.2.1 - c.bbox.1.1) res = .ok 0 := by
      simp [pyIntDiv, hb, ha, pyTrunc_zero]
    have hxs : linspace c.bbox.1.1 c.bbox.2.1 0 = .ok [] := by simp [linspace]
    have hny : pyIntDiv (c.bbox.2.2 - c.bbox.1.2) res =
        .ok (pyTrunc ((c.bbox.2.2 - c.bbox.1.2) / res)) := by
      simp [pyIntDiv, hb]
    cases hys : linspace c.bbox.1.2 c.bbox.2.2
        (pyTrunc ((c.bbox.2.2 - c.bbox.1.2) / res)) with
    | error e => exact ⟨e, by simp [_generate_grid, hnx, hxs, hny, hys]⟩
    | ok ys => exact ⟨.indexError, by simp [_generate_grid, hnx, hxs, hny, hys]⟩

theorem config_errors_after_grid_witness :
    astar_routing comp2 p45 pA3 1 CrossSection.strip 1 = .pyerror .keyError ∧
    (∃ e, _generate_grid comp2 (-1) = .error e) ∧
    (∃ e, _generate_grid compDeg 1 = .error e) :=
  ⟨config_errors_after_grid.1 comp2 p45 pA3 1 CrossSection.strip 1 G2 XS2 XS2
      (by with_unfolding_all rfl) (by with_unfolding_all decide),
   config_errors_after_grid.2.1 comp2 (-1) (by with_unfolding_all decide)
      (by norm_num),
   config_errors_after_grid.2.2 compDeg 1 (by norm_num)
      (by with_unfolding_all decide)⟩

theorem foldl_min_le_init (l : List ℚ) : ∀ a : ℚ, l.foldl min a ≤ a := by
  induction l with
  | nil => intro a; exact le_refl a
  | cons b t ih =>
    intro a
    calc (b :: t).foldl min a = t.foldl min (min a b) := rfl
    _ ≤ min a b := ih (min a b)
    _ ≤ a := min_le_left a b

theorem le_foldl_max_init (l : List ℚ) : ∀ a : ℚ, a ≤ l.foldl max a := by
  induction l with
  | nil => intro a; exact le_refl a
  | cons b t ih =>
    intro a
    calc a ≤ max a b := le_max_left a b
    _ ≤ t.foldl max (max a b) := ih (max a b)
    _ = (b :: t).foldl max a := rfl

theorem foldl_max_pull (l : List ℚ) : ∀ a b : ℚ, l.foldl max (max a b) = max a (l.foldl max b) := by
  induction l with
  | nil => intro a b; rfl
  | cons c t ih =>
    intro a b
    calc (c :: t).foldl max (max a b) = t.foldl max (max (max a b) c) := rfl
    _ = t.foldl max (max a (max b c)) := by rw [max_assoc]
    _ = max a (t.foldl max (max b c)) := ih a (max b c)
    _ = max a ((c :: t).foldl max b) := rfl

theorem listMax_cons₂ (a b : ℚ) (l : List ℚ) :
    listMax (a :: b :: l) = max a (listMax (b :: l)) := by
  show (b :: l).foldl max a = max a (l.foldl max b)
  show l.foldl max (max a b) = max a (l.foldl max b)
  exact foldl_max_pull l a b

theorem foldl_min_eq_of_le (l : List ℚ) : ∀ a : ℚ, (∀ x ∈ l, a ≤ x) → l.foldl min a = a := by
  induction l with
  | nil => intro a _; rfl
  | cons b t ih =>
    intro a h
    have hab : min a b = a := min_eq_left (h b (by simp))
    calc (b :: t).foldl min a = t.foldl min (min a b) := rfl
    _ = t.foldl min a := by rw [hab]
    _ = a := ih a (fun x hx => h x (by simp [hx]))

theorem listMin_eq_head (a : ℚ) (l : List ℚ)
    (h : List.Pairwise (· ≤ ·) (a :: l)) : listMin (a :: l) = a :=
  foldl_min_eq_of_le l a (fun x hx => (List.pairwise_cons.mp h).1 x hx)

theorem firstCloseIdxAux_cons_neg {p a : ℚ} {l : List ℚ} (h : ¬ npIsClose a p) :
    firstCloseIdxAux p (a :: l) = (firstCloseIdxAux p l).map (· + 1) := by
  simp only [firstCloseIdxAux, h, if_false, Bool.false_eq_true]

theorem isSome_map_add (o : Option ℕ) : ((o.map (· + 1)).isSome) = o.isSome := by
  cases o <;> rfl

/-- Density lemma: on a sorted axis whose consecutive gaps are at most
2 (twice the absolute tolerance), every in-range candidate is matched
by some axis entry, so the first-match search succeeds. -/
theorem firstClose_isSome_of_dense (xs : List ℚ) (p : ℚ)
    (hc : List.Chain' (fun u v : ℚ => u ≤ v ∧ v ≤ u + 2) xs)
    (hne : xs ≠ []) (hmin : listMin xs ≤ p) (hmax : p ≤ listMax xs) :
    (firstCloseIdxAux p xs).isSome := by
  induction xs with
  | nil => exact absurd rfl hne
  | cons a rest ih =>
    by_cases hclose : npIsClose a p
    · simp [firstCloseIdxAux, hclose]
    · have hpw : List.Pairwise (fun u v : ℚ => u ≤ v) (a :: rest) :=
        List.chain'_iff_pairwise.mp (hc.imp (fun _ _ hab => hab.1))
      have hap : a ≤ p := by
        rw [listMin_eq_head a rest hpw] at hmin; exact hmin
      have htol : (1 : ℚ) ≤ 1 + |p| / 100000 :=
        le_add_of_nonneg_right (div_nonneg (abs_nonneg p) (by norm_num))
      have hfar : ¬ |a - p| ≤ 1 + |p| / 100000 := by simpa [npIsClose] using hclose
      have hgt : a + 1 < p := by
        by_contra hle
        push_neg at hle
        exact hfar (le_trans (by rw [abs_sub_comm, abs_of_nonneg (by linarith)]; linarith) htol)
      match rest with
      | [] =>
        exact absurd hmax (by simp [listMax]; linarith)
      | b :: t =>
        have hab : a ≤ b ∧ b ≤ a + 2 := (List.chain'_cons.mp hc).1
        have hrest : (firstCloseIdxAux p (b :: t)).isSome := by
          by_cases hbp : b < p
          · have hminr : listMin (b :: t) ≤ p := by
              rw [listMin_eq_head b t (List.pairwise_cons.mp hpw).2]
              exact le_of_lt hbp
            have hmaxr : p ≤ listMax (b :: t) := by
              rw [listMax_cons₂] at hmax
              rcases max_cases a (listMax (b :: t)) with ⟨heq, _⟩ | ⟨heq, _⟩
              · rw [heq] at hmax; linarith
              · rw [heq] at hmax; exact hmax
            exact ih (List.chain'_cons.mp hc).2 (by simp) hminr hmaxr
          · push_neg at hbp
            have hclose2 : npIsClose b p := by
              have : |b - p| ≤ 1 := by
                rw [abs_of_nonneg (by linarith)]
                linarith [hab.2]
              simp only [npIsClose, decide_eq_true_eq]
              linarith [abs_nonneg p, this]
            simp [firstCloseIdxAux, hclose2]
        rw [firstCloseIdxAux_cons_neg hclose, isSome_map_add]
        exact hrest

/-- C10 amended: neighbour generation is total whenever both axes are
sorted with consecutive gaps at most 2 (twice the fixed absolute
tolerance of the nearest-cell lookup): every candidate that passes the
bounds check finds a matching axis entry on both axes, so the
StopIteration branch is unreachable - for any resolution and any grid
contents.  (The counterexample shows the branch is reachable once the
gaps exceed the tolerance.) -/
theorem neighbour_generation_total_when_dense
    (grid : List (List ℚ)) (xs ys : List ℚ) (cur : Node) (res : ℚ)
    (hxne : xs ≠ []) (hyne : ys ≠ [])
    (hcx : List.Chain' (fun u v : ℚ => u ≤ v ∧ v ≤ u + 2) xs)
    (hcy : List.Chain' (fun u v : ℚ => u ≤ v ∧ v ≤ u + 2) ys) :
    ∃ l, _generate_neighbours cur grid xs ys res = .ok l := by
  unfold _generate_neighbours
  suffices h : ∀ (offs : List (ℚ × ℚ)) (pos : ℚ × ℚ),
      ∃ l, scanOffsets grid xs ys pos offs = .ok l by
    obtain ⟨l, hl⟩ := h [(0, -res), (0, res), (-res, 0), (res, 0)] cur.position
    exact ⟨_, by rw [hl]; rfl⟩
  intro offs
  induction offs with
  | nil => intro pos; exact ⟨[], rfl⟩
  | cons off rest ih =>
    intro pos
    by_cases hb : pos.1 + off.1 > listMax xs ∨ pos.1 + off.1 < listMin xs ∨
        pos.2 + off.2 > listMax ys ∨ pos.2 + off.2 < listMin ys
    · obtain ⟨l, hl⟩ := ih pos
      exact ⟨l, by simp only [scanOffsets, if_pos hb]; exact hl⟩
    · have hb' := hb
      push_neg at hb'
      have h1 : (firstCloseIdxAux (pos.1 + off.1) xs).isSome :=
        firstClose_isSome_of_dense xs _ hcx hxne hb'.2.1 hb'.1
      have h2 : (firstCloseIdxAux (pos.2 + off.2) ys).isSome :=
        firstClose_isSome_of_dense ys _ hcy hyne hb'.2.2.2 hb'.2.2.1
      obtain ⟨i, hi⟩ := Option.isSome_iff_exists.mp h1
      obtain ⟨j, hj⟩ := Option.isSome_iff_exists.mp h2
      obtain ⟨l, hl⟩ := ih pos
      by_cases hocc : getCell grid i j = 1
      · refine ⟨l, ?_⟩
        simp only [scanOffsets, if_neg hb, firstCloseIdx, hi, hj, if_pos hocc]
        exact hl
      · refine ⟨(pos.1 + off.1, pos.2 + off.2) :: l, ?_⟩
        simp only [scanOffsets, if_neg hb, firstCloseIdx, hi, hj, if_neg hocc, hl]
        rfl

theorem neighbour_generation_total_when_dense_witness :
    ∃ l, _generate_neighbours nW0 [[0, 0], [0, 0]] [0, 1] [0, 1] 1 = .ok l :=
  neighbour_generation_total_when_dense [[0, 0], [0, 0]] [0, 1] [0, 1] nW0 1
    (by simp) (by simp)
    (by simp [List.chain'_cons])
    (by simp [List.chain'_cons])

theorem argminAuxV_le (t : ℚ) (l : List ℚ) : ∀ (i : ℕ) (bestd : ℚ) (best : ℕ),
    (argminAuxV t l i bestd best).2 ≤ bestd ∧
      ∀ x ∈ l, (argminAuxV t l i bestd best).2 ≤ |x - t| := by
  induction l with
  | nil => intro i bestd best; exact ⟨le_refl _, by simp⟩
  | cons a rest ih =>
    intro i bestd best
    by_cases h : |a - t| < bestd
    · simp only [argminAuxV, if_pos h]
      obtain ⟨h1, h2⟩ := ih (i + 1) |a - t| i
      refine ⟨le_trans h1 (le_of_lt h), fun x hx => ?_⟩
      rcases List.mem_cons.mp hx with rfl | hx2
      · exact h1
      · exact h2 x hx2
    · simp only [argminAuxV, if_neg h]
      obtain ⟨h1, h2⟩ := ih (i + 1) bestd best
      refine ⟨h1, fun x hx => ?_⟩
      rcases List.mem_cons.mp hx with rfl | hx2
      · exact le_trans h1 (not_lt.mp h)
      · exact h2 x hx2

theorem argminAuxV_cases (t : ℚ) (l : List ℚ) : ∀ (i : ℕ) (bestd : ℚ) (best : ℕ),
    argminAuxV t l i bestd best = (best, bestd) ∨
      ∃ k, k < l.length ∧ argminAuxV t l i bestd best = (i + k, |l.getD k 0 - t|) := by
  induction l with
  | nil => intro i bestd best; exact Or.inl rfl
  | cons a rest ih =>
    intro i bestd best
    by_cases h : |a - t| < bestd
    · simp only [argminAuxV, if_pos h]
      rcases ih (i + 1) |a - t| i with heq | ⟨k, hk, heq⟩
      · exact Or.inr ⟨0, by simp, by simpa using heq⟩
      · refine Or.inr ⟨k + 1, by simpa using hk, ?_⟩
        rw [heq]
        have h1 : i + 1 + k = i + (k + 1) := by omega
        have h2 : (a :: rest).getD (k + 1) 0 = rest.getD k 0 := rfl
        rw [h1, h2]
    · simp only [argminAuxV, if_neg h]
      rcases ih (i + 1) bestd best with heq | ⟨k, hk, heq⟩
      · exact Or.inl heq
      · refine Or.inr ⟨k + 1, by simpa using hk, ?_⟩
        rw [heq]
        have h1 : i + 1 + k = i + (k + 1) := by omega
        have h2 : (a :: rest).getD (k + 1) 0 = rest.getD k 0 := rfl
        rw [h1, h2]

theorem argminAbs_lt_length (xs : List ℚ) (t : ℚ) (hne : xs ≠ []) :
    argminAbs xs t < xs.length := by
  match xs with
  | [] => exact absurd rfl hne
  | a :: rest =>
    show (argminAuxV t rest 1 |a - t| 0).1 < rest.length + 1
    rcases argminAuxV_cases t rest 1 |a - t| 0 with heq | ⟨k, hk, heq⟩
    · rw [heq]
      show 0 < rest.length + 1
      omega
    · rw [heq]
      show 1 + k < rest.length + 1
      omega

theorem argminAbs_dist_eq (a : ℚ) (rest : List ℚ) (t : ℚ) :
    |(a :: rest).getD (argminAbs (a :: rest) t) 0 - t| =
      (argminAuxV t rest 1 |a - t| 0).2 := by
  show |(a :: rest).getD (argminAuxV t rest 1 |a - t| 0).1 0 - t| = _
  rcases argminAuxV_cases t rest 1 |a - t| 0 with heq | ⟨k, hk, heq⟩
  · rw [heq]
    rfl
  · rw [heq]
    have h1k : 1 + k = k + 1 := by omega
    rw [h1k]
    rfl

theorem argminAbs_le_dist (xs : List ℚ) (t : ℚ) (j : ℕ) (hj : j < xs.length) :
    |xs.getD (argminAbs xs t) 0 - t| ≤ |xs.getD j 0 - t| := by
  match xs with
  | [] => exact absurd hj (by simp)
  | a :: rest =>
    rw [argminAbs_dist_eq a rest t]
    obtain ⟨h1, h2⟩ := argminAuxV_le t rest 1 |a - t| 0
    match j with
    | 0 => exact h1
    | j' + 1 =>
      have hj' : j' < rest.length := by simpa using hj
      have hmem : rest.getD j' 0 ∈ rest := by
        rw [List.getD_eq_getElem rest 0 hj']
        exact List.getElem_mem hj'
      exact h2 _ hmem

theorem pairwise_lt_getD (xs : List ℚ) (hpw : List.Pairwise (· < ·) xs)
    (k i : ℕ) (hk : k < xs.length) (hi : i < xs.length) (hki : k < i) :
    xs.getD k 0 < xs.getD i 0 := by
  rw [List.getD_eq_getElem xs 0 hk, List.getD_eq_getElem xs 0 hi]
  exact List.pairwise_iff_getElem.mp hpw k i hk hi hki

theorem argminAbs_le_of_ge (xs : List ℚ) (t : ℚ) (i : ℕ)
    (hpw : List.Pairwise (· < ·) xs) (hi : i < xs.length)
    (ht : t ≤ xs.getD i 0) : argminAbs xs t ≤ i := by
  by_contra hgt
  push_neg at hgt
  have hlt := argminAbs_lt_length xs t (by rintro rfl; simp at hi)
  have hd := argminAbs_le_dist xs t i hi
  have hx : xs.getD i 0 < xs.getD (argminAbs xs t) 0 :=
    pairwise_lt_getD xs hpw i (argminAbs xs t) hi hlt hgt
  have h1 : |xs.getD i 0 - t| = xs.getD i 0 - t := abs_of_nonneg (by linarith)
  have h2 : |xs.getD (argminAbs xs t) 0 - t| = xs.getD (argminAbs xs t) 0 - t :=
    abs_of_nonneg (by linarith)
  rw [h1, h2] at hd
  linarith

theorem argminAbs_ge_of_le (xs : List ℚ) (t : ℚ) (i : ℕ)
    (hpw : List.Pairwise (· < ·) xs) (hi : i < xs.length)
    (ht : xs.getD i 0 ≤ t) : i ≤ argminAbs xs t := by
  by_contra hgt
  push_neg at hgt
  have hlt := argminAbs_lt_length xs t (by rintro rfl; simp at hi)
  have hd := argminAbs_le_dist xs t i hi
  have hx : xs.getD (argminAbs xs t) 0 < xs.getD i 0 :=
    pairwise_lt_getD xs hpw (argminAbs xs t) i hlt hi hgt
  have h1 : |xs.getD i 0 - t| = t - xs.getD i 0 := by
    rw [abs_sub_comm]; exact abs_of_nonneg (by linarith)
  have h2 : |xs.getD (argminAbs xs t) 0 - t| = t - xs.getD (argminAbs xs t) 0 := by
    rw [abs_sub_comm]; exact abs_of_nonneg (by linarith)
  rw [h1, h2] at hd
  linarith

theorem mapWithIdx_getD {α β : Type} (f : ℕ → α → β) (l : List α) :
    ∀ (s i : ℕ) (d : α) (d' : β), i < l.length →
      (mapWithIdx f s l).getD i d' = f (s + i) (l.getD i d) := by
  induction l with
  | nil => intro s i d d' h; simp at h
  | cons a rest ih =>
    intro s i d d' h
    match i with
    | 0 => simp [mapWithIdx]
    | i' + 1 =>
      have hi' : i' < rest.length := by simpa using h
      show (mapWithIdx f (s + 1) rest).getD i' d' = _
      rw [ih (s + 1) i' d d' hi']
      have : s + 1 + i' = s + (i' + 1) := by omega
      rw [this]
      rfl

theorem getCell_markRef (xs ys : List ℚ) (ref : (ℚ × ℚ) × (ℚ × ℚ))
    (g : List (List ℚ)) (i j : ℕ)
    (hgl : g.length = xs.length) (hrow : ∀ row ∈ g, row.length = ys.length)
    (hi : i < xs.length) (hj : j < ys.length)
    (hxmin : argminAbs xs ref.1.1 ≤ i) (hxmax : i < argminAbs xs ref.2.1)
    (hymin : argminAbs ys ref.1.2 ≤ j) (hymax : j < argminAbs ys ref.2.2) :
    getCell (markRef xs ys ref g) i j = 1 := by
  have hig : i < g.length := hgl ▸ hi
  have hrowlen : (g.getD i []).length = ys.length := by
    refine hrow _ ?_
    rw [List.getD_eq_getElem g [] hig]
    exact List.getElem_mem hig
  have hjrow : j < (g.getD i []).length := hrowlen ▸ hj
  unfold getCell markRef
  rw [mapWithIdx_getD _ g 0 i [] [] hig]
  simp only [Nat.zero_add, if_pos (And.intro hxmin hxmax)]
  rw [mapWithIdx_getD _ (g.getD i []) 0 j 0 0 hjrow]
  simp only [Nat.zero_add, if_pos (And.intro hymin hymax)]

/-- C5 amended: rasterization marks the half-open argmin index ranges,
so every grid cell whose physical coordinate lies inside an obstacle's
rectangle AND whose index on each axis is strictly below the axis index
nearest the rectangle's max corner is marked occupied.  (The inclusive
lower bound needs no side condition: for a strictly increasing axis, a
cell coordinate at or above the rectangle's min corner always has index
at or above the argmin of that corner.)  The counterexample shows the
strict upper-index condition cannot be dropped: an inside cell sitting
exactly at the nearest-to-max index stays unmarked. -/
theorem raster_marks_interior_cells (xs ys : List ℚ)
    (ref : (ℚ × ℚ) × (ℚ × ℚ)) (g : List (List ℚ)) (i j : ℕ)
    (hsx : List.Pairwise (· < ·) xs) (hsy : List.Pairwise (· < ·) ys)
    (hgl : g.length = xs.length) (hrow : ∀ row ∈ g, row.length = ys.length)
    (hi : i < xs.length) (hj : j < ys.length)
    (h1 : ref.1.1 ≤ xs.getD i 0) (h2 : xs.getD i 0 ≤ ref.2.1)
    (h3 : ref.1.2 ≤ ys.getD j 0) (h4 : ys.getD j 0 ≤ ref.2.2)
    (hxmax : i < argminAbs xs ref.2.1) (hymax : j < argminAbs ys ref.2.2) :
    getCell (markRef xs ys ref g) i j = 1 :=
  getCell_markRef xs ys ref g i j hgl hrow hi hj
    (argminAbs_le_of_ge xs ref.1.1 i hsx hi h1) hxmax
    (argminAbs_le_of_ge ys ref.1.2 j hsy hj h3) hymax

theorem raster_marks_interior_cells_witness :
    getCell (markRef [0, 1, 2, 3] [0, 1, 2, 3] ((1/2, 1/2), (5/2, 5/2))
      [[0, 0, 0, 0], [0, 0, 0, 0], [0, 0, 0, 0], [0, 0, 0, 0]]) 1 1 = 1 :=
  raster_marks_interior_cells [0, 1, 2, 3] [0, 1, 2, 3] ((1/2, 1/2), (5/2, 5/2))
    [[0, 0, 0, 0], [0, 0, 0, 0], [0, 0, 0, 0], [0, 0, 0, 0]] 1 1
    (by with_unfolding_all decide) (by with_unfolding_all decide)
    (by with_unfolding_all decide) (by with_unfolding_all decide)
    (by with_unfolding_all decide) (by with_unfolding_all decide)
    (by with_unfolding_all decide) (by with_unfolding_all decide)
    (by with_unfolding_all decide) (by with_unfolding_all decide)
    (by with_unfolding_all decide) (by with_unfolding_all decide)

theorem astarStep_finished_route_false (env : AstarEnv) (s : SearchState) (r : Route)
    (h : astarStep env s = .finished (.route false r)) :
    ∃ nd, nd.position = env.endNode.position ∧
      r = Route.fromWaypoints
        (env.inPort.center :: ((tracePositions nd).reverse ++ [env.outPort.center]))
        env.cs := by
  obtain ⟨ol, cl⟩ := s
  match ol with
  | [] =>
    unfold astarStep at h
    simp at h
  | a :: rest =>
    unfold astarStep at h
    dsimp only at h
    split at h
    · rename_i hgoal
      refine ⟨(a :: rest).getD (minFIdx (a :: rest)) defaultNode, ?_, ?_⟩
      · exact Prod.ext hgoal.1 hgoal.2
      · have h2 := StepRes.finished.inj h
        have h3 := AstarOutcome.route.inj h2
        exact h3.2.symm
    · split at h
      · simp at h
      · simp at h

/-- C8: whenever the search returns through the success branch (an
unwarned route), the expanded node's coordinate equals the goal
coordinate and the returned waypoints are exactly the true input-port
center, then the parent-chain positions of that node reversed
(root-to-goal order), then the true output-port center. -/
theorem success_waypoints_shape (env : AstarEnv) (fuel : ℕ) (s : SearchState)
    (r : Route) (h : astarRun env fuel s = .route false r) :
    ∃ nd, nd.position = env.endNode.position ∧
      r = Route.fromWaypoints
        (env.inPort.center :: ((tracePositions nd).reverse ++ [env.outPort.center]))
        env.cs := by
  induction fuel generalizing s with
  | zero => simp [astarRun] at h
  | succ n ih =>
    simp only [astarRun] at h
    cases hstep : astarStep env s with
    | finished out =>
      rw [hstep] at h
      simp only at h
      exact astarStep_finished_route_false env s r (by rw [hstep, h])
    | next s2 =>
      rw [hstep] at h
      simp only at h
      exact ih s2 h

theorem success_waypoints_shape_witness :
    ∃ nd, nd.position = envW8.endNode.position ∧
      Route.fromWaypoints [(0, 0), (0, 0), (1, 0), (1, 0)] CrossSection.strip =
        Route.fromWaypoints
          (envW8.inPort.center :: ((tracePositions nd).reverse ++ [envW8.outPort.center]))
          envW8.cs :=
  success_waypoints_shape envW8 2 initW
    (Route.fromWaypoints [(0, 0), (0, 0), (1, 0), (1, 0)] CrossSection.strip)
    (by with_unfolding_all rfl)

theorem minFIdxAux_lt (rest : List Node) : ∀ (bf : ℚ) (i best : ℕ), best < i →
    minFIdxAux rest bf i best < i + rest.length := by
  induction rest with
  | nil => intro bf i best h; simpa [minFIdxAux] using h
  | cons n t ih =>
    intro bf i best h
    by_cases hf : n.f < bf
    · simp only [minFIdxAux, if_pos hf]
      have := ih n.f (i + 1) i (by omega)
      simpa [Nat.add_assoc] using by omega
    · simp only [minFIdxAux, if_neg hf]
      have := ih bf (i + 1) best (by omega)
      simpa [Nat.add_assoc] using by omega

theorem minFIdx_lt (l : List Node) (h : l ≠ []) : minFIdx l < l.length := by
  match l with
  | [] => exact absurd rfl h
  | a :: rest =>
    show minFIdxAux rest a.f 1 0 < rest.length + 1
    have := minFIdxAux_lt rest a.f 1 0 (by omega)
    omega

theorem getD_mem_of_lt (l : List Node) (i : ℕ) (d : Node) (h : i < l.length) :
    l.getD i d ∈ l := by
  rw [List.getD_eq_getElem l d h]
  exact List.getElem_mem h

theorem astarStep_finished_no_running (env : AstarEnv) (s : SearchState)
    (out : AstarOutcome) (h : astarStep env s = .finished out) :
    ∀ s', out ≠ .running s' := by
  obtain ⟨ol, cl⟩ := s
  match ol with
  | [] =>
    unfold astarStep at h
    have hout := StepRes.finished.inj h
    intro s' hcon
    rw [← hout] at hcon
    exact AstarOutcome.noConfusion hcon
  | a :: rest =>
    unfold astarStep at h
    dsimp only at h
    split at h
    · have hout := StepRes.finished.inj h
      intro s' hcon
      rw [← hout] at hcon
      exact AstarOutcome.noConfusion hcon
    · split at h
      · have hout := StepRes.finished.inj h
        intro s' hcon
        rw [← hout] at hcon
        exact AstarOutcome.noConfusion hcon
      · exact StepRes.noConfusion h

theorem astarStep_next_wf (env : AstarEnv) (s s2 : SearchState)
    (hstep : astarStep env s = .next s2)
    (hwf : ∀ nd, nd ∈ s.openList ∨ nd ∈ s.closed →
      WfNode env.resolution env.endNode.position nd) :
    ∀ nd, nd ∈ s2.openList ∨ nd ∈ s2.closed →
      WfNode env.resolution env.endNode.position nd := by
  obtain ⟨ol, cl⟩ := s
  match ol with
  | [] => exact StepRes.noConfusion hstep
  | a :: rest =>
    unfold astarStep at hstep
    dsimp only at hstep
    have hlen : minFIdx (a :: rest) < (a :: rest).length := minFIdx_lt _ (by simp)
    have hcurmem : (a :: rest).getD (minFIdx (a :: rest)) defaultNode ∈ a :: rest :=
      getD_mem_of_lt _ _ _ hlen
    have hcurwf : WfNode env.resolution env.endNode.position
        ((a :: rest).getD (minFIdx (a :: rest)) defaultNode) :=
      hwf _ (Or.inl hcurmem)
    split at hstep
    · exact StepRes.noConfusion hstep
    · revert hstep
      cases hnbrs : _generate_neighbours ((a :: rest).getD (minFIdx (a :: rest)) defaultNode)
          env.grid env.xs env.ys env.resolution with
      | error e => intro hstep; exact StepRes.noConfusion hstep
      | ok nbrs =>
        intro hstep
        dsimp only at hstep
        obtain rfl := StepRes.next.inj hstep
        -- invert the neighbour generation into its candidate positions
        unfold _generate_neighbours at hnbrs
        revert hnbrs
        cases hscan : scanOffsets env.grid env.xs env.ys
            ((a :: rest).getD (minFIdx (a :: rest)) defaultNode).position
            [(0, -env.resolution), (0, env.resolution),
              (-env.resolution, 0), (env.resolution, 0)] with
        | error e => intro hnbrs; exact Except.noConfusion hnbrs
        | ok pl =>
          intro hnbrs
          have hn : nbrs = pl.map (fun p =>
              Node.child ((a :: rest).getD (minFIdx (a :: rest)) defaultNode) p 0 0 0) :=
            (Except.ok.inj hnbrs).symm
          subst hn
          intro nd hnd
          rcases hnd with hop | hcl
          · rcases List.mem_append.mp hop with hrem | hcost
            · exact hwf nd (Or.inl (List.eraseIdx_subset _ _ hrem))
            · obtain ⟨nb, hnbmem, rfl⟩ := List.mem_map.mp hcost
              obtain ⟨p, _hpmem, rfl⟩ := List.mem_map.mp hnbmem
              exact WfNode.child _ p _ _ _ hcurwf rfl rfl rfl
          · rcases List.mem_append.mp hcl with hclold | hcur
            · exact hwf nd (Or.inr hclold)
            · have hnd2 : nd = (a :: rest).getD (minFIdx (a :: rest)) defaultNode := by
                simpa using hcur
              rw [hnd2]
              exact hcurwf

theorem astarRun_running_wf (env : AstarEnv) (fuel : ℕ) : ∀ (s sf : SearchState),
    astarRun env fuel s = .running sf →
    (∀ nd, nd ∈ s.openList ∨ nd ∈ s.closed →
      WfNode env.resolution env.endNode.position nd) →
    ∀ nd, nd ∈ sf.openList ∨ nd ∈ sf.closed →
      WfNode env.resolution env.endNode.position nd := by
  induction fuel with
  | zero =>
    intro s sf h hwf
    have : s = sf := AstarOutcome.running.inj h
    rw [← this]
    exact hwf
  | succ n ih =>
    intro s sf h hwf
    simp only [astarRun] at h
    cases hstep : astarStep env s with
    | finished out =>
      rw [hstep] at h
      simp only at h
      exact absurd h (astarStep_finished_no_running env s out hstep sf)
    | next s2 =>
      rw [hstep] at h
      simp only at h
      exact ih s2 sf h (astarStep_next_wf env s s2 hstep hwf)

theorem wfNode_g_eq (res : ℚ) (goal : ℚ × ℚ) (nd : Node)
    (h : WfNode res goal nd) : nd.g = nd.depth * res := by
  induction h with
  | root p g h f hg => simpa [Node.g, Node.depth] using hg
  | child par p g h f hpar hg hh hf ihpar =>
    show g = ((par.depth + 1 : ℕ) : ℚ) * res
    rw [hg, ihpar]
    push_cast
    ring

/-- C6: for every node present in the search state after any number of
expansion steps from an initial well-formed singleton frontier: its g
equals its parent-chain depth times the resolution (one resolution unit
per move), and if it was created during the search (a child node) then
its g is its parent's g plus exactly one resolution unit, its h is the
squared Euclidean distance between its position and the goal position,
and its f is g + h, recomputed with g. -/
theorem search_costs_wellformed (env : AstarEnv) (fuel : ℕ) (startNode : Node)
    (sf : SearchState)
    (hstart : WfNode env.resolution env.endNode.position startNode)
    (hrun : astarRun env fuel { openList := [startNode], closed := [] } = .running sf) :
    ∀ nd, nd ∈ sf.openList ∨ nd ∈ sf.closed →
      nd.g = nd.depth * env.resolution ∧
      ∀ par p g h f, nd = Node.child par p g h f →
        g = par.g + env.resolution ∧
        h = (p.1 - env.endNode.position.1) ^ 2 + (p.2 - env.endNode.position.2) ^ 2 ∧
        f = g + h := by
  have hwfall := astarRun_running_wf env fuel _ sf hrun (by
    intro nd hnd
    rcases hnd with hop | hcl
    · have : nd = startNode := by simpa using hop
      rw [this]; exact hstart
    · simp at hcl)
  intro nd hnd
  have hw := hwfall nd hnd
  refine ⟨wfNode_g_eq _ _ _ hw, ?_⟩
  intro par p g h f heq
  rw [heq] at hw
  cases hw with
  | child _ _ _ _ _ hpar hg hh hf => exact ⟨hg, hh, hf⟩

theorem search_costs_wellformed_witness :
    (Node.child nW0 (0, 1) 1 41 42).g =
        (Node.child nW0 (0, 1) 1 41 42).depth * envW6.resolution ∧
      ∀ par p g h f, Node.child nW0 (0, 1) 1 41 42 = Node.child par p g h f →
        g = par.g + envW6.resolution ∧
        h = (p.1 - envW6.endNode.position.1) ^ 2 + (p.2 - envW6.endNode.position.2) ^ 2 ∧
        f = g + h :=
  search_costs_wellformed envW6 1 nW0
    { openList := [Node.child nW0 (0, 1) 1 41 42, Node.child nW0 (1, 0) 1 41 42],
      closed := [nW0] }
    (WfNode.root _ _ _ _ rfl)
    (by with_unfolding_all rfl)
    (Node.child nW0 (0, 1) 1 41 42)
    (Or.inl (by simp))

theorem plist_no_goal : ∀ p ∈ Plist, ¬(p.1 = (4 : ℚ) ∧ p.2 = 2) := by
  with_unfolding_all decide

theorem plist_nbrs_ok : ∀ p ∈ Plist, nbrsOkB p = true := by
  with_unfolding_all decide

theorem astarStep_env2_not_finished (s : SearchState) (hinv : IsInv s)
    (out : AstarOutcome) (hstep : astarStep env2 s = .finished out) : False := by
  obtain ⟨ol, cl⟩ := s
  obtain ⟨hne, hmem⟩ := hinv
  match ol with
  | [] => exact hne rfl
  | a :: rest =>
    have hlen : minFIdx (a :: rest) < (a :: rest).length := minFIdx_lt _ (by simp)
    have hcurmem : (a :: rest).getD (minFIdx (a :: rest)) defaultNode ∈ a :: rest :=
      getD_mem_of_lt _ _ _ hlen
    have hpos : ((a :: rest).getD (minFIdx (a :: rest)) defaultNode).position ∈ Plist :=
      hmem _ hcurmem
    unfold astarStep at hstep
    dsimp only at hstep
    split at hstep
    · rename_i hgoal
      exact absurd hgoal (plist_no_goal _ hpos)
    · revert hstep
      cases hscan : scanOffsets env2.grid env2.xs env2.ys
          ((a :: rest).getD (minFIdx (a :: rest)) defaultNode).position
          [(0, -env2.resolution), (0, env2.resolution),
            (-env2.resolution, 0), (env2.resolution, 0)] with
      | error e =>
        intro hstep
        have hx := plist_nbrs_ok _ hpos
        unfold nbrsOkB at hx
        have hscan2 : scanOffsets G2 XS2 XS2
            ((a :: rest).getD (minFIdx (a :: rest)) defaultNode).position
            [(0, -1), (0, 1), (-1, 0), (1, 0)] = .error e := hscan
        rw [hscan2] at hx
        exact absurd hx (by simp)
      | ok pl =>
        intro hstep
        have hgen : _generate_neighbours
            ((a :: rest).getD (minFIdx (a :: rest)) defaultNode)
            env2.grid env2.xs env2.ys env2.resolution = .ok (pl.map (fun p =>
              Node.child ((a :: rest).getD (minFIdx (a :: rest)) defaultNode) p 0 0 0)) := by
          unfold _generate_neighbours
          rw [hscan]
          rfl
        rw [hgen] at hstep
        exact StepRes.noConfusion hstep

theorem astarStep_env2_inv (s s2 : SearchState) (hinv : IsInv s)
    (hstep : astarStep env2 s = .next s2) : IsInv s2 := by
  obtain ⟨ol, cl⟩ := s
  obtain ⟨hne, hmem⟩ := hinv
  match ol with
  | [] => exact absurd rfl hne
  | a :: rest =>
    have hlen : minFIdx (a :: rest) < (a :: rest).length := minFIdx_lt _ (by simp)
    have hcurmem : (a :: rest).getD (minFIdx (a :: rest)) defaultNode ∈ a :: rest :=
      getD_mem_of_lt _ _ _ hlen
    have hpos : ((a :: rest).getD (minFIdx (a :: rest)) defaultNode).position ∈ Plist :=
      hmem _ hcurmem
    unfold astarStep at hstep
    dsimp only at hstep
    split at hstep
    · exact StepRes.noConfusion hstep
    · revert hstep
      cases hnbrs : _generate_neighbours ((a :: rest).getD (minFIdx (a :: rest)) defaultNode)
          env2.grid env2.xs env2.ys env2.resolution with
      | error e => intro hstep; exact StepRes.noConfusion hstep
      | ok nbrs =>
        intro hstep
        dsimp only at hstep
        obtain rfl := StepRes.next.inj hstep
        unfold _generate_neighbours at hnbrs
        revert hnbrs
        cases hscan : scanOffsets env2.grid env2.xs env2.ys
            ((a :: rest).getD (minFIdx (a :: rest)) defaultNode).position
            [(0, -env2.resolution), (0, env2.resolution),
              (-env2.resolution, 0), (env2.resolution, 0)] with
        | error e => intro hnbrs; exact Except.noConfusion hnbrs
        | ok pl =>
          intro hnbrs
          have hn : nbrs = pl.map (fun p =>
              Node.child ((a :: rest).getD (minFIdx (a :: rest)) defaultNode) p 0 0 0) :=
            (Except.ok.inj hnbrs).symm
          subst hn
          have hx := plist_nbrs_ok _ hpos
          unfold nbrsOkB at hx
          have hscan2 : scanOffsets G2 XS2 XS2
              ((a :: rest).getD (minFIdx (a :: rest)) defaultNode).position
              [(0, -1), (0, 1), (-1, 0), (1, 0)] = .ok pl := hscan
          rw [hscan2] at hx
          rw [Bool.and_eq_true] at hx
          obtain ⟨hx1, hx2⟩ := hx
          have hplne : pl ≠ [] := by
            intro hcon
            rw [hcon] at hx1
            simp at hx1
          have hplin : ∀ q ∈ pl, q ∈ Plist := by
            intro q hq
            exact of_decide_eq_true (List.all_eq_true.mp hx2 q hq)
          constructor
          · intro hcon
            rcases List.append_eq_nil.mp hcon with ⟨_, hc2⟩
            rcases List.map_eq_nil_iff.mp hc2 with hc3
            exact hplne (List.map_eq_nil_iff.mp hc3)
          · intro nd hnd
            rcases List.mem_append.mp hnd with hrem | hcost
            · exact hmem nd (List.eraseIdx_subset _ _ hrem)
            · obtain ⟨nb, hnbmem, rfl⟩ := List.mem_map.mp hcost
              obtain ⟨p, hpmem, rfl⟩ := List.mem_map.mp hnbmem
              exact hplin p hpmem

theorem astarRun_env2_running : ∀ (fuel : ℕ) (s : SearchState), IsInv s →
    ∃ sf, astarRun env2 fuel s = .running sf := by
  intro fuel
  induction fuel with
  | zero => intro s _; exact ⟨s, rfl⟩
  | succ n ih =>
    intro s hinv
    simp only [astarRun]
    cases hstep : astarStep env2 s with
    | finished out => exact absurd hstep (fun hc =>
        astarStep_env2_not_finished s hinv out hc)
    | next s2 =>
      simp only
      exact ih s2 (astarStep_env2_inv s s2 hinv hstep)

/-- C2: the routing loop does not terminate on the concrete layout
comp2 (obstacles present, recognized orientations, positive
resolution): the goal anchor (4,2) lies outside the grid, so it is
never expanded, and since every generated neighbour is re-appended
unconditionally the frontier never empties - for every fuel bound the
while-loop is still running, so the Python original loops forever
instead of reaching the fallback. -/
theorem astar_never_terminates (fuel : ℕ) :
    ∃ s, astar_routing comp2 pIn2 pOut2 1 CrossSection.strip fuel = .running s := by
  rw [routing2_eq fuel]
  exact astarRun_env2_running fuel init2 (by with_unfolding_all decide)
